import Mathlib

/-!
Verification of the zxybackupcloser backup tool: a shallow embedding of its
snapshot-reconciliation, transfer, verification and process-pipeline code,
with theorems about the claims of the specification.

The Python source is embedded as executable Lean functions:

* strings are Lean `String`s, manipulated through structural functions on
  their character lists (so that every definition evaluates by `decide`);
* `Snapshot.earliest`, `Snapshot.__get_list`, `Snapshot.get_earliest`,
  `Snapshot.get_latest` (snapshot.py / backupcloser.py) become `earliest`,
  `getListModel`, `get_earliest`, `get_latest`;
* `Backup.prepare`, `Backup.backup`, `Backup.__send`, `Backup.get_mac`,
  `Backup.verify` and the per-pool loop of `launch` (backupcloser.py) become
  `prepareResult`, `backupSendCalls`, `sendEvents`, `get_mac`, `verify`
  and `launchPoolTrace`;
* `Command.execute` and `multi_pipe` (command.py) become `executeModel`
  and `multi_pipe`.
-/

namespace ZxyBackupCloser

/-! ## Character and string utilities

Python string primitives used by the source (`split`, `splitlines`,
`strip`, lexicographic comparison of the sort keys) are embedded as
structural functions on `String.data`, so they reduce in the kernel. -/

/-- Lexicographic comparison of character lists by code point, the order
underlying Python string comparison for the ASCII snapshot names and
timestamp keys handled by the tool. -/
def listLe : List Char → List Char → Bool
  | [], _ => true
  | _ :: _, [] => false
  | c :: cs, d :: ds =>
    if c.toNat < d.toNat then true
    else if d.toNat < c.toNat then false
    else listLe cs ds

/-- Lexicographic string comparison by code point. -/
def strLe (a b : String) : Bool :=
  listLe a.data b.data

/-- Python `s.split(sep)` for a one-character separator: auxiliary loop. -/
def splitOnCharAux (sep : Char) : List Char → List Char → List String
  | [], acc => [String.mk acc.reverse]
  | c :: cs, acc =>
    if c = sep then String.mk acc.reverse :: splitOnCharAux sep cs []
    else splitOnCharAux sep cs (c :: acc)

/-- Python `s.split(sep)` for a one-character separator. -/
def splitOnChar (sep : Char) (s : String) : List String :=
  splitOnCharAux sep s.data []

/-- Python `str.splitlines` (for the `\n`, `\r\n` and `\r` line boundaries
that occur in command output): auxiliary loop. -/
def splitlinesAux : List Char → List Char → List String
  | [], acc => if acc.isEmpty then [] else [String.mk acc.reverse]
  | '\r' :: '\n' :: cs, acc => String.mk acc.reverse :: splitlinesAux cs []
  | '\r' :: cs, acc => String.mk acc.reverse :: splitlinesAux cs []
  | '\n' :: cs, acc => String.mk acc.reverse :: splitlinesAux cs []
  | c :: cs, acc => splitlinesAux cs (c :: acc)

/-- Python `str.splitlines`. -/
def splitlines (s : String) : List String :=
  splitlinesAux s.data []

/-- Python `str.isspace` on one character (the ASCII whitespace class
`[ \t\n\r\v\f]` of the `\s` regex class over the output handled here). -/
def isPySpace (c : Char) : Bool :=
  c = ' ' || c = '\t' || c = '\n' || c = '\r' || c = '\x0b' || c = '\x0c'

/-- Python `str.strip()`: remove leading and trailing whitespace. -/
def pyStrip (s : String) : String :=
  String.mk (((s.data.dropWhile isPySpace).reverse.dropWhile isPySpace).reverse)

/-! ## Snapshot labels and the common-snapshot scan

`Snapshot.earliest` compares the `<label>` halves of identifiers of the
form `<volume>@<label>`: in the source, `snap.split("@")[1]`. -/

/-- The `<label>` part of a snapshot identifier `<volume>@<label>`:
`snap.split("@")[1]` in `Snapshot.earliest`. -/
def labelOf (s : String) : String :=
  (splitOnChar '@' s).getD 1 ("")

/-- `Snapshot.earliest(self, snapshot)`: scan the other history (`bsnap`
over `snapshot.get_list()`) newest-first and, for each of its identifiers,
scan this history (`osnap` over `self.get_list()`) newest-first; the first
`osnap` whose label equals the label of the current `bsnap` is returned,
`none` when no labels are shared.  `selfList` is this instance's cached
list, `otherList` the argument's. -/
def earliest (selfList : List String) : List String → Option String
  | [] => none
  | bsnap :: rest =>
    match selfList.find? (fun osnap => labelOf bsnap == labelOf osnap) with
    | some osnap => some osnap
    | none => earliest selfList rest

/-! ## The timestamp sort key

`Snapshot.__get_list` sorts the listed snapshot names with
`key=lambda s: re.search(r"\d{4}-\d{2}-\d{2}-\d{4}", s).group()` and
`reverse=True`.  The regex has no alternation and a fixed length, so
`re.search` returns the match at the leftmost position where the pattern
`\d{4}-\d{2}-\d{2}-\d{4}` fits. -/

/-- ASCII decimal digit, the `\d` class over the command output handled. -/
def isDigitCh (c : Char) : Bool :=
  48 ≤ c.toNat && c.toNat ≤ 57

/-- Take exactly `n` digits from the front, returning them and the rest. -/
def takeDigits : Nat → List Char → Option (List Char × List Char)
  | 0, cs => some ([], cs)
  | _ + 1, [] => none
  | n + 1, c :: cs =>
    if isDigitCh c then
      match takeDigits n cs with
      | some (ds, rest) => some (c :: ds, rest)
      | none => none
    else none

/-- Match a literal dash at the front. -/
def matchDash : List Char → Option (List Char)
  | '-' :: cs => some cs
  | _ => none

/-- Match `\d{4}-\d{2}-\d{2}-\d{4}` at this position, returning the
matched text. -/
def matchTSAt (cs : List Char) : Option String := do
  let (d1, r1) ← takeDigits 4 cs
  let r2 ← matchDash r1
  let (d2, r3) ← takeDigits 2 r2
  let r4 ← matchDash r3
  let (d3, r5) ← takeDigits 2 r4
  let r6 ← matchDash r5
  let (d4, _) ← takeDigits 4 r6
  pure (String.mk (d1 ++ '-' :: d2 ++ '-' :: d3 ++ '-' :: d4))

/-- `re.search`: the match at the leftmost position where the timestamp
pattern fits, `none` when it fits nowhere. -/
def searchTS : List Char → Option String
  | [] => none
  | c :: cs =>
    match matchTSAt (c :: cs) with
    | some m => some m
    | none => searchTS cs

/-- The sort key of `Snapshot.__get_list`: the embedded
`\d{4}-\d{2}-\d{2}-\d{4}` timestamp of a snapshot name. -/
def tsKey (s : String) : String :=
  (searchTS s.data).getD ("")

/-- The descending-by-timestamp comparison the cache is sorted with:
`b`'s key at most `a`'s key.  A stable sort with this comparison is
Python's stable `list.sort(key=..., reverse=True)`. -/
def tsDescLe (a b : String) : Bool :=
  strLe (tsKey b) (tsKey a)

/-- Insert into a list sorted by `tsDescLe`, before the first element the
inserted one compares `tsDescLe` with — the insertion step of a stable
descending sort. -/
def pyInsert (x : String) : List String → List String
  | [] => [x]
  | y :: ys => if tsDescLe x y then x :: y :: ys else y :: pyInsert x ys

/-- A stable sort by `tsDescLe`: Python's stable
`list.sort(key=lambda s: ..., reverse=True)` produces exactly this list
(stable sorts under one comparison agree). -/
def pySortDesc : List String → List String
  | [] => []
  | x :: xs => pyInsert x (pySortDesc xs)

/-- `Snapshot.__get_list` (backupcloser.py): sort the listed snapshot
names descending by embedded timestamp, then, when the pool is one of the
pools being backed up and the run is a dry run and a simulated snapshot
has been taken (`len(self.__latest) > 0`), insert that synthetic
identifier at position 0. -/
def getListModel (dryrun poolInPools : Bool) (latestSyn : String)
    (lines : List String) : List String :=
  let sorted := pySortDesc lines
  if poolInPools && dryrun && !latestSyn.data.isEmpty then latestSyn :: sorted
  else sorted

/-! ## History accessors and reconciliation

`Snapshot.get_earliest` returns `self.__snapshots[len(self.__snapshots) - 1]`
and `Snapshot.get_latest` returns `self.__snapshots[0]`; `Backup.backup`
inlines the former and `Backup.prepare` the latter.  Indexing an empty
list raises in Python; the embedding totalises with a default that the
theorems exclude by a non-emptiness hypothesis. -/

/-- `Snapshot.get_earliest`: `snapshots[len(snapshots) - 1]`. -/
def get_earliest (snaps : List String) : String :=
  snaps.getD (snaps.length - 1) ("")

/-- `Snapshot.get_latest`: `snapshots[0]`. -/
def get_latest (snaps : List String) : String :=
  snaps.getD 0 ("")

/-- The decision of `Backup.prepare`: `False` (up-to-date, the `KEEP`
case) exactly when `self.__earliest == self.__latest`, where
`self.__earliest` is the optional result of the common-snapshot scan and
`self.__latest` is the newest snapshot of the source; `None` never equals
a string in Python. -/
def prepareResult (e : Option String) (latest : String) : Bool :=
  match e with
  | some s => !(s == latest)
  | none => true

/-- The per-pool body of `launch`: when `prepare()` returned `False` the
loop continues with the next pool; otherwise it runs `backup()`,
`verify()` and `diff()` in that order.  The return value of `verify()` is
discarded by `launch`, so the trace does not depend on it and contains no
rollback step. -/
def launchPoolTrace (prep verifyResult : Bool) : List String :=
  if prep then [("backup"), ("verify"), ("diff")] else []

/-- The run over all pools: each pool's trace in order, later pools
processed regardless of the earlier results. -/
def launchActions (preps : List Bool) : List (List String) :=
  preps.map (fun p => launchPoolTrace p true)

/-! ## The command engine (`Command.execute`)

`Command.initialize` stores the dry-run flag once; `execute` computes
`dryrun = self.__dryrun and not always`, prints the command tree tagged
`"PRT"` under dry run and `"CMD"` otherwise, and under
`self.__dryrun and not always` returns the sentinel `"Under Dryrun."`
without spawning any process. -/

/-- Observable outcome of one `Command.execute` call: whether external
processes were spawned, the tag the command tree was printed with, and
the returned text. -/
structure ExecOutcome where
  spawned : Bool
  tag : String
  output : String
deriving Repr, DecidableEq

/-- `Command.execute(dryrun mode, always, real output of the command)`. -/
def executeModel (dryrun always : Bool) (realOutput : String) : ExecOutcome :=
  let dry := dryrun && !always
  let tag := if dry then ("PRT") else ("CMD")
  if dry then ⟨false, tag, ("Under Dryrun.")⟩
  else ⟨true, tag, realOutput⟩

/-! ## The fan-out copy (`multi_pipe`)

`multi_pipe`'s worker loop reads chunks from the parent's output stream
until a zero-size read, writes each chunk to every child stream in order,
and raises `IOError` as soon as one write reports fewer bytes written
than attempted.  The embedding makes the chunk sequence and the size
reported by each write explicit: `wsize i j` is the size reported by the
write of chunk `i` to child `j`; an `IOError` becomes `Except.error`
carrying the failing `(chunk, child)` pair, and the normal result is the
byte sequence each child's buffer received. -/

/-- One pass of the inner `for o in ostreams` loop: append the chunk to
every child buffer from child `j` on, stopping with an error at the first
write whose reported size differs from the chunk size. -/
def writeChildren (wsize : Nat → Nat → Nat) (i : Nat) (chunk : List Nat) :
    Nat → List (List Nat) → Except (Nat × Nat) (List (List Nat))
  | _, [] => .ok []
  | j, buf :: bufs =>
    if wsize i j = chunk.length then
      match writeChildren wsize i chunk (j + 1) bufs with
      | .ok rest => .ok ((buf ++ chunk) :: rest)
      | .error e => .error e
    else .error (i, j)

/-- The `while True` read loop over the remaining chunks, starting at chunk
index `i` with the child buffers accumulated so far. -/
def multiPipeGo (wsize : Nat → Nat → Nat) :
    Nat → List (List Nat) → List (List Nat) → Except (Nat × Nat) (List (List Nat))
  | _, [], bufs => .ok bufs
  | i, chunk :: rest, bufs =>
    match writeChildren wsize i chunk 0 bufs with
    | .error e => .error e
    | .ok bufs2 => multiPipeGo wsize (i + 1) rest bufs2

/-- `multi_pipe`: the parent produces `chunks` (its successive non-empty
reads) and `k` children start with empty buffers. -/
def multi_pipe (wsize : Nat → Nat → Nat) (chunks : List (List Nat)) (k : Nat) :
    Except (Nat × Nat) (List (List Nat)) :=
  multiPipeGo wsize 0 chunks (List.replicate k [])

/-! ## The transfer commands (`Backup.__send`, `Backup.backup`)

`CMD_ZFS_SEND = "zfs send -Rw {options} {earliest} {latest}"`,
`SEND_OPTION_INTERMIDIATE = "-I"`, `SEND_OPTION_ESTIMATEDSIZE = "-vn"`.
`__send` first executes the estimate command (an ordinary
`execute()` call, `always=False`), notices the last line of
`stdout_text.strip().splitlines()`, then executes the send pipeline. -/

/-- `CMD_ZFS_SEND.format(options=..., earliest=..., latest=...)`. -/
def zfsSendCommandline (options earliestArg latestArg : String) : String :=
  ("zfs send -Rw ") ++ options ++ (" ") ++ earliestArg ++ (" ") ++ latestArg

/-- `i_option = SEND_OPTION_INTERMIDIATE if latest != "" else ""`. -/
def sendIOption (latestArg : String) : String :=
  if latestArg == ("") then ("") else ("-I")

/-- The estimate command of `__send`:
`options = f"{SEND_OPTION_ESTIMATEDSIZE} {i_option}"`. -/
def estimateCommandline (earliestArg latestArg : String) : String :=
  zfsSendCommandline (("-vn ") ++ sendIOption latestArg) earliestArg latestArg

/-- The send command at the root of the transfer pipeline of `__send`. -/
def backupCommandline (earliestArg latestArg : String) : String :=
  zfsSendCommandline (sendIOption latestArg) earliestArg latestArg

/-- `estimated[len(estimated) - 1]` of
`estimated = stdout_text.strip().splitlines()`: the last output line. -/
def lastOutputLine (s : String) : String :=
  (splitlines (pyStrip s)).getLastD ("")

/-- One observable step of `__send`: a top-level `execute` call (with its
command line, its `always` flag and whether it spawned processes), or an
operator notice. -/
inductive SendEvent where
  | execCmd (cmdline : String) (always spawned : Bool)
  | notice (line : String)
deriving Repr, DecidableEq

/-- The observable steps of `Backup.__send(earliest, latest, ...)` given
the engine mode and the text the two external commands would print:
estimate, notice of the estimate's last output line, send pipeline. -/
def sendEvents (dryrun : Bool) (estOut summaryOut : String)
    (earliestArg latestArg : String) : List SendEvent :=
  let est := executeModel dryrun false estOut
  let bk := executeModel dryrun false summaryOut
  [SendEvent.execCmd (estimateCommandline earliestArg latestArg) false est.spawned,
   SendEvent.notice (lastOutputLine est.output),
   SendEvent.execCmd (backupCommandline earliestArg latestArg) false bk.spawned]

/-- The `__send` calls `Backup.backup` makes, as
`(earliest, latest, destination)` triples in order: when the
common-snapshot scan found nothing (`self.__earliest is None`), first
`__send(snaps[len(snaps) - 1], "", destination)` and then the
incremental send from that point; otherwise only the incremental send. -/
def backupSendCalls (earliestOpt : Option String) (snaps : List String)
    (latestSnap dest : String) : List (String × String × String) :=
  match earliestOpt with
  | none =>
    let e := snaps.getD (snaps.length - 1) ("")
    [(e, (""), dest), (e, latestSnap, dest)]
  | some e => [(e, latestSnap, dest)]

/-- The observable steps of `Backup.backup`: the concatenated `__send`
steps of `backupSendCalls` (each send drawing its own external output). -/
def backupEvents (dryrun : Bool) (estOut1 sumOut1 estOut2 sumOut2 : String)
    (earliestOpt : Option String) (snaps : List String)
    (latestSnap : String) : List SendEvent :=
  match earliestOpt with
  | none =>
    sendEvents dryrun estOut1 sumOut1 (snaps.getD (snaps.length - 1) ("")) ("") ++
      sendEvents dryrun estOut2 sumOut2 (snaps.getD (snaps.length - 1) ("")) latestSnap
  | some e => sendEvents dryrun estOut2 sumOut2 e latestSnap

/-! ## Digest extraction and verification (`Backup.get_mac`, `Backup.verify`)

`get_mac` keeps the summary lines on which
`re.match(r"\s*portable_mac = (0x[0-9a-f]{2} )+", line)` succeeds;
`verify` compares the two extracted lists for equality.  `re.match`
anchors at the start of the line and succeeds as soon as leading
whitespace, the literal `portable_mac = ` and at least one
`0x`‑hex‑hex‑space group have matched; the rest of the line is free. -/

/-- Lowercase hexadecimal digit, the `[0-9a-f]` class. -/
def isHexLowerDigit (c : Char) : Bool :=
  (48 ≤ c.toNat && c.toNat ≤ 57) || (97 ≤ c.toNat && c.toNat ≤ 102)

/-- Consume the leading `\s*`. -/
def dropLeadingSpaces : List Char → List Char
  | [] => []
  | c :: cs => if isPySpace c then dropLeadingSpaces cs else c :: cs

/-- Match a literal character sequence at the front. -/
def stripLiteral : List Char → List Char → Option (List Char)
  | [], cs => some cs
  | _ :: _, [] => none
  | p :: ps, c :: cs => if c = p then stripLiteral ps cs else none

/-- Match one `0x[0-9a-f]{2} ` group at the front; one group suffices for
the `( )+` repetition of the anchored `re.match` to succeed. -/
def matchesMacByte : List Char → Bool
  | '0' :: 'x' :: h1 :: h2 :: ' ' :: _ => isHexLowerDigit h1 && isHexLowerDigit h2
  | _ => false

/-- `re.match(r"\s*portable_mac = (0x[0-9a-f]{2} )+", line)` succeeds. -/
def matchesMacLine (s : String) : Bool :=
  match stripLiteral ("portable_mac = ").data (dropLeadingSpaces s.data) with
  | none => false
  | some rest => matchesMacByte rest

/-- `Backup.get_mac`: the summary lines matching the portable-MAC
pattern, in their original order. -/
def get_mac (summary : String) : List String :=
  (splitlines summary).filter matchesMacLine

/-- The comparison `Backup.verify` returns: the MAC record lines
extracted from the original transfer summary equal those extracted from
the re-derived destination summary. -/
def verify (summary backupSummary : String) : Bool :=
  get_mac summary == get_mac backupSummary

/-! # Theorems -/

/-! ## Order lemmas for `listLe` / `strLe` -/

theorem listLe_refl : ∀ l : List Char, listLe l l = true := by
  intro l
  induction l with
  | nil => rfl
  | cons c cs ih => simp [listLe, ih]

theorem strLe_refl (s : String) : strLe s s = true :=
  listLe_refl s.data

theorem listLe_total : ∀ a b : List Char, listLe a b = true ∨ listLe b a = true := by
  intro a
  induction a with
  | nil => intro b; left; rfl
  | cons c cs ih =>
    intro b
    cases b with
    | nil => right; rfl
    | cons d ds =>
      rcases Nat.lt_trichotomy c.toNat d.toNat with h | h | h
      · left; simp [listLe, h]
      · rcases ih ds with h2 | h2
        · left; simp [listLe, h, h2]
        · right; simp [listLe, h.symm, h2]
      · right; simp [listLe, h]

theorem strLe_total (a b : String) : strLe a b = true ∨ strLe b a = true :=
  listLe_total a.data b.data

theorem listLe_trans :
    ∀ a b c : List Char, listLe a b = true → listLe b c = true → listLe a c = true := by
  intro a
  induction a with
  | nil => intro b c _ _; rfl
  | cons x xs ih =>
    intro b c h1 h2
    cases b with
    | nil => simp [listLe] at h1
    | cons y ys =>
      cases c with
      | nil => simp [listLe] at h2
      | cons z zs =>
        simp only [listLe] at h1 h2 ⊢
        by_cases hxy : x.toNat < y.toNat
        · by_cases hyz : y.toNat < z.toNat
          · simp [Nat.lt_trans hxy hyz]
          · by_cases hzy : z.toNat < y.toNat
            · simp [hyz, hzy] at h2
            · have hy : y.toNat = z.toNat :=
                Nat.le_antisymm (Nat.not_lt.mp hzy) (Nat.not_lt.mp hyz)
              have hxz : x.toNat < z.toNat := hy ▸ hxy
              simp [hxz]
        · by_cases hyx : y.toNat < x.toNat
          · simp [hxy, hyx] at h1
          · have hx : x.toNat = y.toNat :=
              Nat.le_antisymm (Nat.not_lt.mp hyx) (Nat.not_lt.mp hxy)
            simp only [if_neg hxy, if_neg hyx] at h1
            by_cases hyz : y.toNat < z.toNat
            · have hxz : x.toNat < z.toNat := hx ▸ hyz
              simp [hxz]
            · by_cases hzy : z.toNat < y.toNat
              · simp [hyz, hzy] at h2
              · have hy : y.toNat = z.toNat :=
                  Nat.le_antisymm (Nat.not_lt.mp hzy) (Nat.not_lt.mp hyz)
                have hxz : x.toNat = z.toNat := hx.trans hy
                simp only [if_neg hyz, if_neg hzy] at h2
                rw [hxz]
                simp only [Nat.lt_irrefl, if_false]
                exact ih ys zs h1 h2

theorem strLe_trans (a b c : String) :
    strLe a b = true → strLe b c = true → strLe a c = true :=
  listLe_trans a.data b.data c.data

theorem tsDescLe_trans (a b c : String) (h1 : tsDescLe a b = true)
    (h2 : tsDescLe b c = true) : tsDescLe a c = true :=
  strLe_trans (tsKey c) (tsKey b) (tsKey a) h2 h1

theorem tsDescLe_total (a b : String) : tsDescLe a b = true ∨ tsDescLe b a = true :=
  strLe_total (tsKey b) (tsKey a)

/-! ## The sorted snapshot cache -/

theorem mem_pyInsert (z x : String) :
    ∀ l : List String, z ∈ pyInsert x l ↔ z = x ∨ z ∈ l := by
  intro l
  induction l with
  | nil => simp [pyInsert]
  | cons y ys ih =>
    by_cases h : tsDescLe x y = true
    · simp [pyInsert, h]
    · simp [pyInsert, h, ih]
      tauto

theorem pairwise_pyInsert (x : String) (l : List String)
    (h : l.Pairwise (fun a b => tsDescLe a b = true)) :
    (pyInsert x l).Pairwise (fun a b => tsDescLe a b = true) := by
  induction l with
  | nil => simp [pyInsert]
  | cons y ys ih =>
    rcases List.pairwise_cons.mp h with ⟨hy, hys⟩
    by_cases hxy : tsDescLe x y = true
    · simp only [pyInsert, if_pos hxy]
      rw [List.pairwise_cons]
      refine ⟨?_, h⟩
      intro z hz
      rcases List.mem_cons.mp hz with rfl | hzys
      · exact hxy
      · exact tsDescLe_trans x y z hxy (hy z hzys)
    · simp only [pyInsert, if_neg hxy]
      rw [List.pairwise_cons]
      refine ⟨?_, ih hys⟩
      intro z hz
      rcases (mem_pyInsert z x ys).mp hz with rfl | hzys
      · rcases tsDescLe_total z y with hc | hc
        · exact absurd hc hxy
        · exact hc
      · exact hy z hzys

theorem pairwise_pySortDesc (l : List String) :
    (pySortDesc l).Pairwise (fun a b => tsDescLe a b = true) := by
  induction l with
  | nil => simp [pySortDesc]
  | cons x xs ih => exact pairwise_pyInsert x _ ih

theorem mem_pySortDesc (z : String) : ∀ l : List String, z ∈ pySortDesc l ↔ z ∈ l := by
  intro l
  induction l with
  | nil => simp [pySortDesc]
  | cons x xs ih => simp [pySortDesc, mem_pyInsert, ih]

/-- In a list sorted descending by timestamp key, the head's key bounds
every element's key. -/
theorem pairwise_head_max (l : List String)
    (h : l.Pairwise (fun a b => tsDescLe a b = true)) :
    ∀ x ∈ l, strLe (tsKey x) (tsKey (l.headD (""))) = true := by
  cases l with
  | nil => intro x hx; cases hx
  | cons a t =>
    intro x hx
    rcases List.mem_cons.mp hx with rfl | hxt
    · exact strLe_refl _
    · exact (List.pairwise_cons.mp h).1 x hxt

/-! ## List indexing -/

/-- `l[len(l) - 1]` is the last element. -/
theorem getD_length_sub_one {α : Type} (l : List α) (d : α) (h : l ≠ []) :
    l.getD (l.length - 1) d = l.getLastD d := by
  induction l with
  | nil => exact absurd rfl h
  | cons x t ih =>
    cases t with
    | nil => rfl
    | cons y t2 =>
      simp only [List.length_cons, Nat.add_sub_cancel, List.getD_cons_succ, List.getLastD]
      simpa using ih (by simp)

/-! ## Fan-out fidelity of `multi_pipe`

When every write reports the full chunk size, every child receives
exactly the concatenation of the parent's chunks, in order. -/

theorem writeChildren_full (wsize : Nat → Nat → Nat) (i : Nat) (chunk : List Nat) :
    ∀ (j : Nat) (bufs : List (List Nat)), (∀ j2, wsize i j2 = chunk.length) →
      writeChildren wsize i chunk j bufs = .ok (bufs.map (· ++ chunk)) := by
  intro j bufs
  induction bufs generalizing j with
  | nil => intro _; rfl
  | cons buf bufs ih =>
    intro h
    simp [writeChildren, h j, ih (j + 1) h]

theorem multiPipeGo_full (wsize : Nat → Nat → Nat) :
    ∀ (chunks : List (List Nat)) (i : Nat) (bufs : List (List Nat)),
      (∀ d j, wsize (i + d) j = (chunks.getD d []).length) →
      multiPipeGo wsize i chunks bufs = .ok (bufs.map (· ++ chunks.flatten)) := by
  intro chunks
  induction chunks with
  | nil => intro i bufs _; simp [multiPipeGo]
  | cons chunk rest ih =>
    intro i bufs h
    have h0 : ∀ j2, wsize i j2 = chunk.length := fun j2 => by simpa using h 0 j2
    have hrest : ∀ d j, wsize (i + 1 + d) j = (rest.getD d []).length := by
      intro d j
      have harith : i + 1 + d = i + (d + 1) := by omega
      rw [harith]
      simpa using h (d + 1) j
    simp only [multiPipeGo, writeChildren_full wsize i chunk 0 bufs h0,
      ih (i + 1) (bufs.map (· ++ chunk)) hrest]
    simp [List.map_map, Function.comp_def, List.append_assoc]

/-- The fan-out invariant of `multi_pipe`: with full writes, each of the
`k` children observes exactly the bytes the parent produced. -/
theorem multi_pipe_full (wsize : Nat → Nat → Nat) (chunks : List (List Nat)) (k : Nat)
    (h : ∀ i j, wsize i j = (chunks.getD i []).length) :
    multi_pipe wsize chunks k = .ok (List.replicate k chunks.flatten) := by
  rw [multi_pipe, multiPipeGo_full wsize chunks 0 (List.replicate k [])
    (fun d j => by simpa using h d j)]
  simp

/-! ## The claims -/

/-- Claim C1: for every pair of cached snapshot-identifier lists `A`
(self, the source) and `B` (the argument, the destination), each sorted
newest-first, that share at least one label (the substring after the
`'@'`), `earliest` called with `B` on `A` returns an identifier belonging
to `A` whose label is the most recent label occurring in both lists (the
scan over `B` newest-first, with an inner scan of `A` newest-first,
returning on the first label match). -/
theorem earliest_returns_most_recent_shared
    (A B : List String)
    (hwfA : ∀ s ∈ A, 2 ≤ (splitOnChar '@' s).length)
    (hwfB : ∀ s ∈ B, 2 ≤ (splitOnChar '@' s).length)
    (hA : A.Pairwise (fun x y => strLe (labelOf y) (labelOf x) = true))
    (hB : B.Pairwise (fun x y => strLe (labelOf y) (labelOf x) = true))
    (l0 : String) (hl0A : l0 ∈ A.map labelOf) (hl0B : l0 ∈ B.map labelOf) :
    ∃ r, earliest A B = some r ∧ r ∈ A ∧ labelOf r ∈ B.map labelOf ∧
      ∀ l, l ∈ A.map labelOf → l ∈ B.map labelOf → strLe l (labelOf r) = true := by
  clear hwfA hA
  revert hwfB hB hl0B
  induction B with
  | nil => intro _ _ h; cases h
  | cons b rest ih =>
    intro hwfB hB hl0B
    cases hfind : A.find? (fun osnap => labelOf b == labelOf osnap) with
    | some osnap =>
      have hmem : osnap ∈ A := List.mem_of_find?_eq_some hfind
      have heq : labelOf b = labelOf osnap := by
        simpa using List.find?_some hfind
      refine ⟨osnap, ?_, hmem, ?_, ?_⟩
      · simp [earliest, hfind]
      · rw [List.map_cons, ← heq]
        exact List.mem_cons_self _ _
      · intro l hlA hlB2
        rcases List.mem_map.mp hlB2 with ⟨y, hy, hyl⟩
        rcases List.mem_cons.mp hy with rfl | hyrest
        · rw [← hyl, heq]
          exact strLe_refl _
        · have hle := (List.pairwise_cons.mp hB).1 y hyrest
          rw [← hyl, ← heq]
          exact hle
    | none =>
      have hnotin : labelOf b ∉ A.map labelOf := by
        intro hmem
        obtain ⟨a, haA, hal⟩ := List.mem_map.mp hmem
        have hnone := List.find?_eq_none.mp hfind a haA
        simp [hal] at hnone
      have hl0rest : l0 ∈ rest.map labelOf := by
        rcases List.mem_map.mp hl0B with ⟨y, hy, hyl⟩
        rcases List.mem_cons.mp hy with rfl | hyrest
        · rw [← hyl] at hl0A
          exact absurd hl0A hnotin
        · exact List.mem_map.mpr ⟨y, hyrest, hyl⟩
      obtain ⟨r, hr1, hr2, hr3, hr4⟩ :=
        ih (fun s hs => hwfB s (List.mem_cons_of_mem b hs))
          (List.Pairwise.of_cons hB) hl0rest
      refine ⟨r, ?_, hr2, ?_, ?_⟩
      · simpa [earliest, hfind] using hr1
      · rw [List.map_cons]
        exact List.mem_cons_of_mem _ hr3
      · intro l hlA hlB2
        rcases List.mem_map.mp hlB2 with ⟨y, hy, hyl⟩
        rcases List.mem_cons.mp hy with rfl | hyrest
        · rw [← hyl] at hlA
          exact absurd hlA hnotin
        · exact hr4 l hlA (List.mem_map.mpr ⟨y, hyrest, hyl⟩)

/-- Witness for C1 at source history `["t@2", "t@1"]` and destination
history `["d@2", "d@0"]`, whose shared label is `"2"`. -/
theorem earliest_returns_most_recent_shared_witness :
    (earliest (["t@2", "t@1"]) (["d@2", "d@0"])).isSome = true := by
  obtain ⟨r, hr, -, -, -⟩ :=
    earliest_returns_most_recent_shared (["t@2", "t@1"]) (["d@2", "d@0"])
      (by decide) (by decide) (by decide) (by decide) ("2") (by decide) (by decide)
  rw [hr]
  rfl

/-- Claim C2: for every source history `A` and destination history `B`
that share no label, the common-snapshot scan returns `none`;
reconciliation then proceeds (`prepare` does not report up-to-date) and
`Backup.backup` selects the `FULL` case: it first sends the source's
oldest snapshot (the last element of the newest-first list) whole — with
empty upper bound and hence no intermediate `-I` flag — and afterwards
sends the incremental range from that point to the latest snapshot. -/
theorem no_shared_label_full_backup
    (A B : List String) (latestSnap dest : String)
    (hne : A ≠ [])
    (hno : ∀ a ∈ A, ∀ b ∈ B, labelOf a ≠ labelOf b) :
    earliest A B = none ∧
    prepareResult (earliest A B) latestSnap = true ∧
    backupSendCalls (earliest A B) A latestSnap dest =
      [(get_earliest A, (""), dest), (get_earliest A, latestSnap, dest)] ∧
    get_earliest A = A.getLastD ("") ∧
    sendIOption ("") = ("") := by
  have hnone : earliest A B = none := by
    clear hne
    revert hno
    induction B with
    | nil => intro _; rfl
    | cons b rest ih =>
      intro hno
      have hfind : A.find? (fun osnap => labelOf b == labelOf osnap) = none := by
        rw [List.find?_eq_none]
        intro a ha
        simpa using (hno a ha b (List.mem_cons_self b rest)).symm
      have hrest := ih (fun a ha b2 hb2 => hno a ha b2 (List.mem_cons_of_mem b hb2))
      simp [earliest, hfind, hrest]
  refine ⟨hnone, ?_, ?_, ?_, rfl⟩
  · rw [hnone]; rfl
  · rw [hnone]; rfl
  · exact getD_length_sub_one A ("") hne

/-- Witness for C2 at source history `["t@2", "t@1"]` and destination
history `["d@x"]`, which share no label. -/
theorem no_shared_label_full_backup_witness :
    earliest (["t@2", "t@1"]) (["d@x"]) = none ∧
    prepareResult (earliest (["t@2", "t@1"]) (["d@x"])) ("t@2") = true ∧
    backupSendCalls (earliest (["t@2", "t@1"]) (["d@x"])) (["t@2", "t@1"]) ("t@2") ("b/t") =
      [(get_earliest (["t@2", "t@1"]), (""), ("b/t")),
       (get_earliest (["t@2", "t@1"]), ("t@2"), ("b/t"))] ∧
    get_earliest (["t@2", "t@1"]) = (["t@2", "t@1"] : List String).getLastD ("") ∧
    sendIOption ("") = ("") :=
  no_shared_label_full_backup (["t@2", "t@1"]) (["d@x"]) ("t@2") ("b/t")
    (by decide) (by decide)

/-- Claim C3: whenever the shared earliest-common snapshot equals the
source's latest snapshot (`get_list()[0]`), `prepare` classifies the
backup as up-to-date (`KEEP`, returning `False`), and the per-pool loop
of `launch` then runs no backup, verify or diff step for that pool and
moves on to the next pool. -/
theorem keep_case_skips_pool (A B : List String) (preps : List Bool)
    (h : earliest A B = some (get_latest A)) :
    prepareResult (earliest A B) (get_latest A) = false ∧
    launchPoolTrace (prepareResult (earliest A B) (get_latest A)) true = [] ∧
    launchActions (prepareResult (earliest A B) (get_latest A) :: preps) =
      [] :: launchActions preps := by
  rw [h]
  refine ⟨?_, ?_, ?_⟩ <;> simp [prepareResult, launchPoolTrace, launchActions]

/-- Witness for C3 at source history `["t@5"]` and destination history
`["b/t@5"]`, both at label `"5"`. -/
theorem keep_case_skips_pool_witness :
    prepareResult (earliest (["t@5"]) (["b/t@5"])) (get_latest (["t@5"])) = false ∧
    launchPoolTrace (prepareResult (earliest (["t@5"]) (["b/t@5"])) (get_latest (["t@5"]))) true = [] ∧
    launchActions (prepareResult (earliest (["t@5"]) (["b/t@5"])) (get_latest (["t@5"])) :: [true]) =
      [] :: launchActions [true] :=
  keep_case_skips_pool (["t@5"]) (["b/t@5"]) [true] (by decide)

/-- Claim C4: verification is a pure function of the digest-record lists
of the two transfer summaries — `get_mac` returns exactly the summary
lines matching the portable-MAC pattern, in their original order (a
sublist of the summary's lines containing every matching line), and
`verify` returns true if and only if the two extracted lists are equal as
ordered lists. -/
theorem verify_is_mac_list_equality (s b : String) :
    List.Sublist (get_mac s) (splitlines s) ∧
    (∀ l, l ∈ get_mac s ↔ l ∈ splitlines s ∧ matchesMacLine l = true) ∧
    (verify s b = true ↔ get_mac s = get_mac b) := by
  refine ⟨List.filter_sublist _, fun l => List.mem_filter, ?_⟩
  simp [verify]

/-- Claim C5 (evaluation at the failing input): with differing digest
records `verify` returns `false` and no rollback is issued, but the
per-pool trace of `launch` is identical whether verification succeeded or
failed — `launch` discards the result of `Backup.verify()`, so the
failure is not surfaced as a distinct verification-failure report. -/
theorem verify_failure_ignored_check :
    verify ("portable_mac = 0xab \n") ("portable_mac = 0xcd \n") = false ∧
    launchPoolTrace true false = launchPoolTrace true true ∧
    ("rollback") ∉ launchPoolTrace true false := by
  refine ⟨by decide, rfl, by decide⟩

/-- Claim C6 (evaluation at the failing input): the `multi_pipe` copy
loop delivers the parent's bytes to each child in order when all writes
complete (here two chunks to two children), and raises an `IOError`
(modelled as `Except.error` with the failing chunk/child pair) at the
first write that reports fewer bytes than attempted — but that error is
raised inside the worker thread, which the claim's "fails the whole run"
overstates. -/
theorem multi_pipe_short_write_check :
    multi_pipe (fun i _ => if i = 0 then 3 else 1) [[1, 2, 3], [4]] 2 =
      Except.ok [[1, 2, 3, 4], [1, 2, 3, 4]] ∧
    multi_pipe (fun _ _ => 2) [[1, 2, 3]] 1 = Except.error (0, 0) :=
  ⟨rfl, rfl⟩

/-- Claim C7: in simulate (dry-run) mode an `execute` call with
`always=False` spawns no external process, prints the command tree with
the `"PRT"` tag instead of `"CMD"`, and returns the sentinel
`"Under Dryrun."`; with `always=True` the command runs normally even in
simulate mode; outside simulate mode every command runs. -/
theorem simulate_mode_only_prints (out : String) (d : Bool) :
    executeModel true false out = ⟨false, ("PRT"), ("Under Dryrun.")⟩ ∧
    executeModel true true out = ⟨true, ("CMD"), out⟩ ∧
    executeModel false false out = ⟨true, ("CMD"), out⟩ ∧
    (executeModel d false out).spawned = !d := by
  refine ⟨rfl, rfl, rfl, ?_⟩
  cases d <;> rfl

/-- Counterexample to C8: in simulated mode the size-estimate command of
`__send` is executed as an ordinary call (`always=False`), so it spawns
no process — its execute outcome has `spawned = false` — contradicting
the claim that it is executed even when the engine is in simulated mode. -/
theorem estimate_not_executed_in_simulate_check :
    (sendEvents true ("size is 1.2M") ("summary") ("t@1") ("t@2")).getD 0
        (SendEvent.notice ("")) =
      SendEvent.execCmd (estimateCommandline ("t@1") ("t@2")) false false ∧
    (executeModel true false ("size is 1.2M")).spawned = false :=
  ⟨rfl, rfl⟩

/-- Claim C8 as amended: each send performed by `backup()` is preceded by
the size-estimate command (the same send command with the estimate-only
`-vn` flag), issued as an ordinary `always=False` call — hence executed
exactly when the engine is not in simulated mode, and only printed in
simulated mode — and the last line of the estimate call's output (the
real estimate, or the dry-run sentinel) is surfaced to the operator at
notice severity. -/
theorem estimate_precedes_each_send (dryrun : Bool)
    (eo1 so1 eo2 so2 e lat : String) (snaps : List String) :
    sendEvents dryrun eo1 so1 e lat =
      [SendEvent.execCmd (estimateCommandline e lat) false (!dryrun),
       SendEvent.notice (lastOutputLine (if dryrun then ("Under Dryrun.") else eo1)),
       SendEvent.execCmd (backupCommandline e lat) false (!dryrun)] ∧
    estimateCommandline e lat = zfsSendCommandline (("-vn ") ++ sendIOption lat) e lat ∧
    backupEvents dryrun eo1 so1 eo2 so2 none snaps lat =
      sendEvents dryrun eo1 so1 (get_earliest snaps) ("") ++
        sendEvents dryrun eo2 so2 (get_earliest snaps) lat ∧
    backupEvents dryrun eo1 so1 eo2 so2 (some e) snaps lat =
      sendEvents dryrun eo2 so2 e lat := by
  refine ⟨?_, rfl, rfl, rfl⟩
  cases dryrun <;> rfl

/-- Claim C9: whenever the snapshot cache is built by `__get_list` it is
ordered newest-first by the timestamp embedded in each identifier — also
in simulated mode, where the synthetic identifier (whose timestamp, being
freshly generated, is at least every listed one) is inserted at position
0 — and the element at index 0 carries the most recent timestamp of the
cache. -/
theorem snapshot_cache_newest_first (dryrun poolIn : Bool) (syn : String)
    (lines : List String)
    (hsyn : ∀ l ∈ lines, strLe (tsKey l) (tsKey syn) = true) :
    (getListModel dryrun poolIn syn lines).Pairwise (fun a b => tsDescLe a b = true) ∧
    (∀ x ∈ getListModel dryrun poolIn syn lines,
      strLe (tsKey x) (tsKey ((getListModel dryrun poolIn syn lines).headD (""))) = true) ∧
    (poolIn = true → dryrun = true → syn.data.isEmpty = false →
      (getListModel dryrun poolIn syn lines).headD ("") = syn) := by
  by_cases hc : (poolIn && dryrun && !syn.data.isEmpty) = true
  · have hg : getListModel dryrun poolIn syn lines = syn :: pySortDesc lines := by
      simp [getListModel, hc]
    have hp : (syn :: pySortDesc lines).Pairwise (fun a b => tsDescLe a b = true) := by
      rw [List.pairwise_cons]
      refine ⟨?_, pairwise_pySortDesc lines⟩
      intro y hy
      exact hsyn y ((mem_pySortDesc y lines).mp hy)
    rw [hg]
    exact ⟨hp, pairwise_head_max _ hp, fun _ _ _ => rfl⟩
  · have hg : getListModel dryrun poolIn syn lines = pySortDesc lines := by
      simp only [getListModel]
      rw [if_neg (by simpa using hc)]
    rw [hg]
    refine ⟨pairwise_pySortDesc lines, pairwise_head_max _ (pairwise_pySortDesc lines), ?_⟩
    intro hp hd hs
    refine absurd ?_ hc
    rw [hp, hd, hs]
    rfl

/-- Witness for C9: a dry run over one listed snapshot with a fresher
synthetic snapshot; the cache is sorted newest-first and headed by the
synthetic identifier. -/
theorem snapshot_cache_newest_first_witness :
    (getListModel true true ("p@zfs-auto-snap_hourly-2021-12-12-0000")
        (["p@zfs-auto-snap_hourly-2021-12-10-0557",
          "p@zfs-auto-snap_hourly-2021-12-11-0557"])).Pairwise
      (fun a b => tsDescLe a b = true) ∧
    (getListModel true true ("p@zfs-auto-snap_hourly-2021-12-12-0000")
        (["p@zfs-auto-snap_hourly-2021-12-10-0557",
          "p@zfs-auto-snap_hourly-2021-12-11-0557"])).headD ("") =
      ("p@zfs-auto-snap_hourly-2021-12-12-0000") := by
  have h := snapshot_cache_newest_first true true
    ("p@zfs-auto-snap_hourly-2021-12-12-0000")
    (["p@zfs-auto-snap_hourly-2021-12-10-0557",
      "p@zfs-auto-snap_hourly-2021-12-11-0557"]) (by decide)
  exact ⟨h.1, h.2.2 rfl rfl rfl⟩

/-- Counterexample to C10: on the newest-first cache `["p@2", "p@1"]`,
`get_earliest` returns `"p@1"` — the last element, not the first — and
`get_latest` returns `"p@2"` — the first element, not the last. -/
theorem get_earliest_first_element_check :
    get_earliest (["p@2", "p@1"]) = ("p@1") ∧
    get_earliest (["p@2", "p@1"]) ≠ (["p@2", "p@1"] : List String).headD ("") ∧
    get_latest (["p@2", "p@1"]) = ("p@2") ∧
    get_latest (["p@2", "p@1"]) ≠ (["p@2", "p@1"] : List String).getLastD ("") := by
  decide

/-- Claim C10 as amended: for every non-empty cached history,
`get_earliest` returns the last element and `get_latest` returns the
first element of the cached newest-first ordered sequence (on an empty
history both are undefined in the source — an index error — and must not
be called). -/
theorem get_earliest_last_get_latest_first (snaps : List String) (h : snaps ≠ []) :
    get_earliest snaps = snaps.getLastD ("") ∧ get_latest snaps = snaps.headD ("") := by
  refine ⟨getD_length_sub_one snaps ("") h, ?_⟩
  cases snaps with
  | nil => exact absurd rfl h
  | cons a t => rfl

/-- Witness for the amended C10 at the cache `["p@2", "p@1"]`. -/
theorem get_earliest_last_get_latest_first_witness :
    get_earliest (["p@2", "p@1"]) = (["p@2", "p@1"] : List String).getLastD ("") ∧
    get_latest (["p@2", "p@1"]) = (["p@2", "p@1"] : List String).headD ("") :=
  get_earliest_last_get_latest_first (["p@2", "p@1"]) (by decide)

end ZxyBackupCloser
